import Mathlib

/-!
Verification of the rustnn/rustnnpt WebNN conformance harness.

Shallow embedding of the core components, translated from the JavaScript
sources:
  - src/wpt/tolerance.js           (namespace Tolerance)
  - src/graph/build-graph-json.js  (namespace GraphJson)
  - src/shim/webnn-shim.js         (namespace Shim)
  - src/bridge/runner-client.js    (namespace Bridge)
  - src/wpt/extract-tests.js       (namespace Extract)
  - src/wpt/run-conformance.js     (namespace Conformance)

JavaScript numbers flowing through the tolerance verifier are modelled by
their float32 bit patterns (the verifier reinterprets every value as a
32-bit float for its ULP computation); the exact rational value denoted by
a bit pattern is used for the absolute-difference comparison, and the
decimal literal 1e-4 is modelled as the exact rational 1/10000.
-/

namespace Tolerance

/-- Exponent field (8 bits) of a float32 bit pattern. -/
def f32Exp (bits : Nat) : Nat := bits / 2 ^ 23 % 2 ^ 8

/-- Mantissa field (23 bits) of a float32 bit pattern. -/
def f32Man (bits : Nat) : Nat := bits % 2 ^ 23

/-- Sign bit of a float32 bit pattern. -/
def f32SignBit (bits : Nat) : Bool := 2 ^ 31 ≤ bits % 2 ^ 32

/-- Models `Number.isNaN` on the value denoted by a float32 bit pattern. -/
def f32IsNaN (bits : Nat) : Bool := f32Exp bits == 255 && f32Man bits != 0

/-- Models `Number.isFinite` on the value denoted by a float32 bit pattern. -/
def f32IsFinite (bits : Nat) : Bool := f32Exp bits != 255

/-- The bit pattern denotes `+0` or `-0`. -/
def f32IsZero (bits : Nat) : Bool := f32Exp bits == 0 && f32Man bits == 0

/-- Exact rational value denoted by a finite float32 bit pattern:
`sign * mantissa * 2 ^ (-149)` for subnormals and
`sign * (2 ^ 23 + mantissa) * 2 ^ (exp - 150)` for normal values.
Rational arithmetic is spelled out through `mkRat` and the `num`/`den`
projections throughout this file because the library's `Rat` operations
are irreducible to the kernel. -/
def f32ToRat (bits : Nat) : ℚ :=
  let s : Int := if f32SignBit bits then -1 else 1
  if f32Exp bits == 0 then mkRat (s * f32Man bits) (2 ^ 149)
  else mkRat (s * ((2 ^ 23 + f32Man bits) * 2 ^ f32Exp bits : Nat)) (2 ^ 150)

/-- Exact subtraction of rationals. -/
def ratSub (x y : ℚ) : ℚ := mkRat (x.num * y.den - y.num * x.den) (x.den * y.den)

/-- Exact strict comparison of rationals (denominators are positive). -/
def ratLt (x y : ℚ) : Bool := x.num * y.den < y.num * x.den

/-- Models `Math.abs` on an exact rational. -/
def ratAbs (q : ℚ) : ℚ := if q.num < 0 then mkRat (-q.num) q.den else q

/-- Models `Object.is(a, b)` on two float32 values: same bit pattern, or both NaN
(JS treats every NaN as `Object.is`-equal regardless of payload). -/
def objectIs (a b : Nat) : Bool := a == b || (f32IsNaN a && f32IsNaN b)

/-- JS strict equality on two float32 values: false when either is NaN,
true for `+0 === -0`, otherwise bit-pattern equality (distinct non-NaN,
non-zero bit patterns denote distinct values). -/
def strictEq (a b : Nat) : Bool :=
  if f32IsNaN a || f32IsNaN b then false
  else if f32IsZero a && f32IsZero b then true
  else a == b

/-- Models `toOrdered` of tolerance.js: sign-aware monotonic reordering of the bit
pattern (`bits & 0x80000000 ? 0x80000000 - (bits & 0x7fffffff) : bits + 0x80000000`,
with the bit masks written as `%`). -/
def toOrdered (bits : Nat) : Int :=
  if f32SignBit bits then (2 ^ 31 : Int) - (bits % 2 ^ 31 : Nat)
  else (bits : Int) + 2 ^ 31

/-- Models `ulpDistanceF32` of tolerance.js; `none` models an infinite distance. -/
def ulpDistanceF32 (a b : Nat) : Option Nat :=
  if objectIs a b then some 0
  else if !(f32IsFinite a && f32IsFinite b) then
    if strictEq a b then some 0 else none
  else some (toOrdered a - toOrdered b).natAbs

/-- The `OP_ULP` table of tolerance.js. -/
def OP_ULP : List (String × Nat) :=
  [("add", 1), ("sub", 1), ("mul", 1), ("div", 2), ("relu", 0),
   ("sigmoid", 34), ("tanh", 16), ("softmax", 256), ("matmul", 512),
   ("exp", 4), ("log", 4), ("sqrt", 2),
   ("reduce_sum", 8), ("reduce_mean", 16), ("reduce_max", 0),
   ("reduce_min", 0), ("reduce_product", 32), ("reduce_l1", 8),
   ("reduce_l2", 16), ("reduce_log_sum", 16), ("reduce_log_sum_exp", 32),
   ("reduce_sum_square", 16)]

/-- The `OP_ABS_TOL` table of tolerance.js (`OP_ABS_TOL[name]?.[dataType]`). -/
def OP_ABS_TOL (name dataType : String) : Option ℚ :=
  if name == "cos" then
    if dataType == "float32" then some (mkRat 1 (2 ^ 10))
    else if dataType == "float16" then some (mkRat 1 (2 ^ 7))
    else none
  else if name == "sin" then
    if dataType == "float32" then some (mkRat 1 (2 ^ 11))
    else if dataType == "float16" then some (mkRat 1 (2 ^ 7))
    else none
  else none

/-- Models `String.prototype.startsWith`, evaluated over the character lists. -/
def strStartsWith (s pre : String) : Bool := pre.toList.isPrefixOf s.toList

/-- Models `ulp > ulpTol` where `ulp` may be infinite. -/
def ulpGtTol (ulp : Option Nat) (ulpTol : Nat) : Bool :=
  match ulp with
  | none => true
  | some k => ulpTol < k

/-- Models `OP_ABS_TOL[operatorName]?.[dataType] ?? (dataType.startsWith('float') ? 1e-4 : 0)`
(tolerance.js line 107), with the decimal literal 1e-4 as the exact 1/10000. -/
def absTolFor (operatorName dataType : String) : ℚ :=
  (OP_ABS_TOL operatorName dataType).getD
    (if strStartsWith dataType "float" then mkRat 1 10000 else 0)

/-- Models `OP_ULP[operatorName] ?? 4` (tolerance.js line 93). -/
def ulpTolFor (operatorName : String) : Nat := (OP_ULP.lookup operatorName).getD 4

/-- Body of the per-element loop of `assertOutputClose` (tolerance.js lines
98-114), for one expected value `e` and one actual value `a`; `true` means
the element is accepted. -/
def checkElem (operatorName dataType : String) (e a : Nat) : Bool :=
  if f32IsNaN e && f32IsNaN a then true
  else if !f32IsFinite e || !f32IsFinite a then strictEq e a
  else
    let absDiff : ℚ := ratAbs (ratSub (f32ToRat a) (f32ToRat e))
    let ulp : Option Nat := ulpDistanceF32 a e
    !(ratLt (absTolFor operatorName dataType) absDiff && ulpGtTol ulp (ulpTolFor operatorName))

/-- A data element of a tensor: a JS number (recorded by its float32 bit
pattern) or an int64/uint64 payload (decimal string or BigInt on the wire,
recorded by its integer value). -/
inductive Elem where
  | num (bits : Nat)
  | intStr (z : Int)
deriving DecidableEq, Repr

/-- Models `BigInt(value)` as used by `castActual`/`castExpected` for int64/uint64
tensors. int64 tensor data arrive as decimal strings or BigInts; `BigInt`
on a non-integral number throws, and the `num` case is modelled by
truncation (it is not exercised by well-typed tensors). -/
def castToBigInt : Elem → Int
  | .intStr z => z
  | .num bits => (f32ToRat bits).num / (f32ToRat bits).den

/-- The float32 bit pattern of `Number(elem)`. -/
def elemBits : Elem → Nat
  | .num bits => bits
  | .intStr _ => 0

structure TensorDesc where
  dataType : String
  shape : List Nat
deriving DecidableEq, Repr

structure Tensor where
  descriptor : TensorDesc
  data : List Elem
deriving DecidableEq, Repr

inductive VerifyError where
  | lengthMismatch (outputName : String) (expectedLen actualLen : Nat)
  | shapeMismatch (outputName : String) (expectedShape actualShape : List Nat)
  | valueMismatch (outputName : String) (index : Nat)
deriving DecidableEq, Repr

/-- Index of the first mismatching element in the int64/uint64 branch. -/
def firstI64Fail (es as : List Elem) (i : Nat) : Option Nat :=
  match es, as with
  | e :: es1, a :: as1 =>
      if castToBigInt a == castToBigInt e then firstI64Fail es1 as1 (i + 1)
      else some i
  | _, _ => none

/-- Index of the first rejected element in the generic (float) branch. -/
def firstFloatFail (operatorName dataType : String) (es as : List Elem)
    (i : Nat) : Option Nat :=
  match es, as with
  | e :: es1, a :: as1 =>
      if checkElem operatorName dataType (elemBits e) (elemBits a) then
        firstFloatFail operatorName dataType es1 as1 (i + 1)
      else some i
  | _, _ => none

/-- Models `assertOutputClose` of tolerance.js, returning the first violation (or
`none` when the tensors compare close). Shapes are compared as lists;
the source compares `JSON.stringify` images, which coincide on lists of
naturals since that encoding is injective. The array-wrapping of scalar
`expected.data` and the `?? []` default for `actual.data` are pre-applied
by the list representation. -/
def assertOutputClose (operatorName outputName : String)
    (expected actual : Tensor) : Option VerifyError :=
  let dataType := expected.descriptor.dataType
  let expectedData := expected.data
  let actualData := actual.data
  if expectedData.length != actualData.length then
    some (.lengthMismatch outputName expectedData.length actualData.length)
  else if expected.descriptor.shape != actual.descriptor.shape then
    some (.shapeMismatch outputName expected.descriptor.shape actual.descriptor.shape)
  else if dataType == "int64" || dataType == "uint64" then
    (firstI64Fail expectedData actualData 0).map (.valueMismatch outputName)
  else
    (firstFloatFail operatorName dataType expectedData actualData 0).map
      (.valueMismatch outputName)

end Tolerance

namespace GraphJson

/-- A JavaScript value as it appears in fixture graph-resources structures. -/
inductive JsValue where
  | str (s : String)
  | num (q : ℚ)
  | jsBool (b : Bool)
  | bigint (z : Int)
  | null
  | arr (elems : List JsValue)
  | obj (entries : List (String × JsValue))

/-- Models `normalizeOpName` of build-graph-json.js (the identity). -/
def normalizeOpName (name : String) : String := name

mutual

/-- Models `normalizeValue` of build-graph-json.js: stringify 64-bit integers,
recurse into arrays and objects, leave everything else alone. -/
def normalizeValue : JsValue → JsValue
  | .bigint z => .str (toString z)
  | .arr elems => .arr (normalizeValueList elems)
  | .obj entries => .obj (normalizeValueEntries entries)
  | .str s => .str s
  | .num q => .num q
  | .jsBool b => .jsBool b
  | .null => .null

def normalizeValueList : List JsValue → List JsValue
  | [] => []
  | v :: vs => normalizeValue v :: normalizeValueList vs

def normalizeValueEntries : List (String × JsValue) → List (String × JsValue)
  | [] => []
  | kv :: kvs => (kv.1, normalizeValue kv.2) :: normalizeValueEntries kvs

end

def asStr? : JsValue → Option String
  | .str s => some s
  | _ => none

/-- Models `flattenInputReferences` of build-graph-json.js: a single string is one
reference, an all-string array is a reference list, anything else yields
no references. -/
def flattenInputReferences (argumentValue : JsValue) : List String :=
  match argumentValue with
  | .str s => [s]
  | .arr elems =>
      if elems.all fun v => (asStr? v).isSome then elems.filterMap asStr? else []
  | _ => []

/-- Models `normalizeOptions` of build-graph-json.js. The source's two branches
(string/number/boolean vs array/null/object) both apply `normalizeValue`,
and every modelled value falls in one of them. -/
def normalizeOptions (optionsObj : List (String × JsValue)) : List (String × JsValue) :=
  optionsObj.map fun kv => (kv.1, normalizeValue kv.2)

/-- Models `value && typeof value === 'object'`. -/
def isObjectLike : JsValue → Bool
  | .obj _ => true
  | .arr _ => true
  | _ => false

/-- Models `Object.entries(value)` for object-like values (index keys for arrays). -/
def objEntries : JsValue → List (String × JsValue)
  | .obj entries => entries
  | .arr elems => elems.enum.map fun p => (toString p.1, p.2)
  | _ => []

structure Descriptor where
  dataType : String
  shape : List Nat
deriving DecidableEq, Repr

structure InputSpec where
  descriptor : Descriptor
  data : List JsValue
  constant : Bool

/-- Models `op.outputs` of a fixture operator: a single name or an array of names. -/
inductive OutputsSpec where
  | single (name : String)
  | list (names : List String)
deriving DecidableEq, Repr

/-- Models `Array.isArray(op.outputs) ? op.outputs : [op.outputs]`. -/
def OutputsSpec.toList : OutputsSpec → List String
  | .single name => [name]
  | .list names => names

structure Operator where
  name : String
  arguments : List (List (String × JsValue))
  outputs : OutputsSpec

structure ExpectedOutput where
  descriptor : Descriptor
  data : List JsValue

/-- A graph-resources structure (builder output or parsed fixture). Maps
are modelled as key-value lists in insertion order; the source's `?? []`
and `?? {}` defaults are pre-applied by the list representation. -/
structure GraphResources where
  inputs : List (String × InputSpec)
  operators : List Operator
  expectedOutputs : List (String × ExpectedOutput)

structure Node where
  id : String
  op : String
  inputs : List String
  options : List (String × JsValue)
  outputs : List String

structure GraphDoc where
  format : String
  version : Nat
  name : String
  quantized : Bool
  inputs : List (String × Descriptor)
  consts : List (String × Descriptor)
  nodes : List Node
  outputs : List (String × String)

/-- One step of the argument-flattening loop of `buildGraphJson` (lines
69-84): an `options`-keyed object is merged into the option bag, operand
references are appended to the input list, and any other entry becomes a
normalized option. -/
def addArgEntry (acc : List String × List (String × JsValue))
    (kv : String × JsValue) : List String × List (String × JsValue) :=
  if kv.1 == "options" && isObjectLike kv.2 then
    (acc.1, acc.2 ++ normalizeOptions (objEntries kv.2))
  else
    let refs := flattenInputReferences kv.2
    if refs.length > 0 then (acc.1 ++ refs, acc.2)
    else (acc.1, acc.2 ++ [(kv.1, normalizeValue kv.2)])

/-- The node built for the operator at position `index`. -/
def buildNode (op : Operator) (index : Nat) : Node :=
  let acc := op.arguments.foldl (fun acc arg => arg.foldl addArgEntry acc) ([], [])
  { id := "op_" ++ toString index
    op := normalizeOpName op.name
    inputs := acc.1
    options := acc.2
    outputs := op.outputs.toList }

/-- The `forEach` over operators of `buildGraphJson`, carrying the index. -/
def buildNodes : List Operator → Nat → List Node
  | [], _ => []
  | op :: rest, index => buildNode op index :: buildNodes rest (index + 1)

/-- Models `buildGraphJson` of build-graph-json.js. The source's inputs loop has
two branches (constant or not) with identical bodies, so both are the one
map below; `consts` is never populated. -/
def buildGraphJson (graphResources : GraphResources) : GraphDoc :=
  { format := "webnn-graph-json"
    version := 2
    name := "wpt_graph"
    quantized := false
    inputs := graphResources.inputs.map fun kv =>
      (kv.1, ⟨kv.2.descriptor.dataType, kv.2.descriptor.shape⟩)
    consts := []
    nodes := buildNodes graphResources.operators 0
    outputs := graphResources.expectedOutputs.map fun kv => (kv.1, kv.1) }

end GraphJson

namespace Shim

/-- Models `MLOperand` of webnn-shim.js: a symbolic tensor handle. -/
structure MLOperand where
  name : String
  dataType : String
  shape : List Nat
deriving DecidableEq, Repr

/-- A node recorded by `MLGraphBuilder._op`: its `outputs` is the single
generated placeholder name. -/
structure BuilderNode where
  id : String
  op : String
  arguments : List (List (String × GraphJson.JsValue))
  outputs : String

structure BuilderInput where
  data : List GraphJson.JsValue
  descriptor : GraphJson.Descriptor
  constant : Bool

/-- The mutable state of an `MLGraphBuilder` session. -/
structure BuilderState where
  inputs : List (String × BuilderInput)
  nodes : List BuilderNode
  tempId : Nat

/-- One element of `graphResources.operators` inside `build`. -/
structure BuildOperator where
  name : String
  arguments : List (List (String × GraphJson.JsValue))
  outputs : String

/-- Models `graphResources.operators[graphResources.operators.length - 1].outputs = name`. -/
def renameLastOutput : List BuildOperator → String → List BuildOperator
  | [], _ => []
  | [op], name => [{ op with outputs := name }]
  | op :: op2 :: rest, name => op :: renameLastOutput (op2 :: rest) name

/-- One iteration of the `namedOutputs` loop of `build` (webnn-shim.js
lines 209-220), restricted to its effect on the operator list: when the
designated operand's recorded name differs from the caller-chosen name and
at least one operator exists, the LAST operator's output is renamed. -/
def applyNamedOutput (ops : List BuildOperator) (entry : String × MLOperand) :
    List BuildOperator :=
  if entry.2.name != entry.1 && !ops.isEmpty then renameLastOutput ops entry.1
  else ops

/-- A node of the graph document emitted by `build` (its `inputs` are the
raw argument values, pushed without normalization). -/
structure ShimNode where
  id : String
  op : String
  inputs : List GraphJson.JsValue
  options : List (String × GraphJson.JsValue)
  outputs : List String

structure ShimGraphJson where
  format : String
  version : Nat
  name : String
  quantized : Bool
  inputs : List (String × GraphJson.Descriptor)
  consts : List (String × GraphJson.Descriptor)
  nodes : List ShimNode
  outputs : List (String × String)

/-- One entry of the argument-flattening loop inside `build` (lines
240-249): `options` objects are merged verbatim, array values are spread
into the inputs, and any other value is pushed as a single input. -/
def addBuildArgEntry (acc : List GraphJson.JsValue × List (String × GraphJson.JsValue))
    (kv : String × GraphJson.JsValue) :
    List GraphJson.JsValue × List (String × GraphJson.JsValue) :=
  if kv.1 == "options" then (acc.1, acc.2 ++ GraphJson.objEntries kv.2)
  else
    match kv.2 with
    | .arr elems => (acc.1 ++ elems, acc.2)
    | v => (acc.1 ++ [v], acc.2)

def emitNode (index : Nat) (op : BuildOperator) : ShimNode :=
  let acc := op.arguments.foldl (fun acc arg => arg.foldl addBuildArgEntry acc) ([], [])
  { id := "op_" ++ toString index
    op := op.name
    inputs := acc.1
    options := acc.2
    outputs := [op.outputs] }

def emitNodes : List BuildOperator → Nat → List ShimNode
  | [], _ => []
  | op :: rest, index => emitNode index op :: emitNodes rest (index + 1)

/-- Models `MLGraphBuilder.build(namedOutputs)` of webnn-shim.js (lines 202-260),
returning the emitted graph document. `namedOutputs` is the entry list of
the caller's object, in insertion order. -/
def build (st : BuilderState) (namedOutputs : List (String × MLOperand)) :
    ShimGraphJson :=
  let operators := st.nodes.map fun n => BuildOperator.mk n.op n.arguments n.outputs
  let operators := namedOutputs.foldl applyNamedOutput operators
  { format := "webnn-graph-json"
    version := 2
    name := "ml_builder_graph"
    quantized := false
    inputs := st.inputs.map fun kv => (kv.1, kv.2.descriptor)
    consts := []
    nodes := emitNodes operators 0
    outputs := namedOutputs.map fun kv => (kv.1, kv.1) }

/-- The net effect of the `namedOutputs` loop on the final operator's
output name: the last entry whose operand name differs from its chosen
name wins; with no such entry the original name stays. -/
def finalOutputName (namedOutputs : List (String × MLOperand)) (orig : String) : String :=
  namedOutputs.foldl (fun cur e => if e.2.name != e.1 then e.1 else cur) orig

end Shim

namespace Bridge

/-- Models `msg.error` of a failure response. -/
structure ErrInfo where
  kind : Option String
  message : Option String

/-- A parsed response message of the runner protocol. -/
structure Msg where
  id : String
  ok : Bool
  outputs : Option (List (String × Tolerance.Tensor))
  error : Option ErrInfo

/-- The error delivered to a rejected completion handle. -/
inductive RunnerError where
  | runtime (kind message : String)
  | processExit (code : Option Int) (signal : Option String)

/-- One line arriving on the worker's stdout: blank, not valid JSON, or a
parsed response message. -/
inductive Line where
  | blank
  | malformed
  | response (msg : Msg)

/-- Settling a completion handle (identified by an abstract token). -/
inductive Settle where
  | resolve (token : Nat) (outputs : List (String × Tolerance.Tensor))
  | reject (token : Nat) (err : RunnerError)

def Settle.token : Settle → Nat
  | .resolve t _ => t
  | .reject t _ => t

/-- The Bridge's correlation table: correlation id to completion-handle
token, in insertion order (a JS `Map`). -/
structure ClientState where
  pending : List (String × Nat)

/-- Models `this.pending.get(id)`. -/
def lookupId : List (String × Nat) → String → Option Nat
  | [], _ => none
  | kv :: rest, id => if kv.1 == id then some kv.2 else lookupId rest id

/-- Models `this.pending.delete(id)` (a `Map` holds at most one entry per key). -/
def eraseId : List (String × Nat) → String → List (String × Nat)
  | [], _ => []
  | kv :: rest, id => if kv.1 == id then rest else kv :: eraseId rest id

/-- Models `this.pending.set(id, waiter)`. -/
def mapSet : List (String × Nat) → String → Nat → List (String × Nat)
  | [], id, tok => [(id, tok)]
  | kv :: rest, id, tok =>
      if kv.1 == id then (kv.1, tok) :: rest else kv :: mapSet rest id tok

/-- Registration performed by `executeGraph` before writing the request. -/
def send (st : ClientState) (id : String) (waiter : Nat) : ClientState :=
  ⟨mapSet st.pending id waiter⟩

/-- The `rl.on('line', ...)` handler of runner-client.js (lines 71-89):
blank and malformed lines return early, an id with no pending entry is
dropped, otherwise the entry is deleted and resolved or rejected. -/
def onLine (st : ClientState) (line : Line) : ClientState × List Settle :=
  match line with
  | .blank => (st, [])
  | .malformed => (st, [])
  | .response msg =>
    match lookupId st.pending msg.id with
    | none => (st, [])
    | some waiter =>
      let st1 : ClientState := ⟨eraseId st.pending msg.id⟩
      if msg.ok then (st1, [.resolve waiter (msg.outputs.getD [])])
      else
        let kind := (msg.error.bind ErrInfo.kind).getD "RuntimeExecutionError"
        let message := (msg.error.bind ErrInfo.message).getD "runner error"
        (st1, [.reject waiter (.runtime kind message)])

/-- The `this.proc.on('exit', ...)` handler of runner-client.js (lines
91-97): every pending entry is rejected with a process-exit error and the
table is cleared. -/
def onExit (st : ClientState) (code : Option Int) (signal : Option String) :
    ClientState × List Settle :=
  (⟨[]⟩, st.pending.map fun kv => .reject kv.2 (.processExit code signal))

/-- Folding the line handler over a sequence of incoming lines. -/
def processLines (st : ClientState) : List Line → ClientState × List Settle
  | [] => (st, [])
  | l :: ls =>
    let r1 := onLine st l
    let r2 := processLines r1.1 ls
    (r2.1, r1.2 ++ r2.2)

end Bridge

namespace Extract

/-- Models `\w` of the declaration-matching regular expression. -/
def isWordChar (c : Char) : Bool := c.isAlphanum || c == '_'

/-- Models `\s` of the declaration-matching regular expression (ASCII range). -/
def isSpaceChar (c : Char) : Bool :=
  c == ' ' || c == '\t' || c == '\n' || c == '\r' || c == '\x0b' || c == '\x0c'

def dropLit : List Char → List Char → Option (List Char)
  | [], cs => some cs
  | _ :: _, [] => none
  | p :: ps, c :: cs => if c == p then dropLit ps cs else none

/-- Attempt to match `const\s+(\w+Tests)\s*=\s*\[` at the head of the
character list, returning the captured declaration name. `\w+Tests`
followed by `\s*=` forces the maximal word run after `const` to end in
`Tests` (a longer run would put a word character where `=` or whitespace
is required), so the run itself is the capture. -/
def tryMatchAt (cs : List Char) : Option String :=
  match dropLit "const".toList cs with
  | none => none
  | some cs1 =>
    if (cs1.takeWhile isSpaceChar).isEmpty then none
    else
      let cs2 := cs1.dropWhile isSpaceChar
      let w := cs2.takeWhile isWordChar
      let cs3 := cs2.dropWhile isWordChar
      if 6 ≤ w.length && "Tests".toList.isSuffixOf w then
        match cs3.dropWhile isSpaceChar with
        | '=' :: cs4 =>
          match cs4.dropWhile isSpaceChar with
          | '[' :: _ => some (String.mk w)
          | _ => none
        | _ => none
      else none

def findName : List Char → Option String
  | [] => none
  | c :: rest =>
    match tryMatchAt (c :: rest) with
    | some w => some w
    | none => findName rest

/-- Models `sourceText.match(/const\s+(\w+Tests)\s*=\s*\[/)`, returning the first
captured `<name>Tests` declaration name. -/
def findTestsArrayName (sourceText : String) : Option String :=
  findName sourceText.toList

/-- Outcome of evaluating the stripped fixture script inside the
restricted `vm` context. The evaluation itself runs third-party script in
an external engine, so it enters the model as an oracle: the captured
`globalThis.__captured_tests` value, a raised error, or an exceeded
execution budget (the 5000 ms `timeout` option). -/
inductive EvalOutcome where
  | ok (captured : GraphJson.JsValue)
  | raise (message : String)
  | timeout

inductive ExtractResult where
  | ok (tests : List GraphJson.JsValue)
  | error (message : String)

def ExtractResult.isError : ExtractResult → Bool
  | .error _ => true
  | .ok _ => false

/-- Models `extractTestsFromSource` of extract-tests.js: fail when no matching
declaration exists; fail when evaluation raises or the budget is exceeded
(both surface through the same catch); fail when the captured value is
not an array; otherwise return the captured array. -/
def extractTestsFromSource (sourceText sourceName : String)
    (evalOutcome : EvalOutcome) : ExtractResult :=
  match findTestsArrayName sourceText with
  | none => .error ("No <name>Tests array found in " ++ sourceName)
  | some _ =>
    match evalOutcome with
    | .raise m => .error ("Failed to evaluate " ++ sourceName ++ ": " ++ m)
    | .timeout =>
        .error ("Failed to evaluate " ++ sourceName ++ ": Script execution timed out.")
    | .ok v =>
      match v with
      | .arr tests => .ok tests
      | _ => .error ("Extracted test payload is not an array in " ++ sourceName)

end Extract

namespace Conformance

/-- Models `normalizeOpName` of run-conformance.js: global replacement of
`([a-z0-9])([A-Z])` by the two characters separated by an underscore
(scanning resumes after the matched pair), then lowercasing. -/
def snakeInsert : List Char → List Char
  | [] => []
  | [c] => [c]
  | c1 :: c2 :: rest =>
    if (c1.isLower || c1.isDigit) && c2.isUpper then
      c1 :: '_' :: c2 :: snakeInsert rest
    else c1 :: snakeInsert (c2 :: rest)

def normalizeOpName (opName : String) : String :=
  String.mk ((snakeInsert opName.toList).map Char.toLower)

/-- An invocation of `assertOutputClose` made by `runSingleTest`. -/
structure AssertCall where
  operatorName : String
  outputName : String
deriving DecidableEq, Repr

/-- Models `normalizedGraph.nodes[normalizedGraph.nodes.length - 1]?.op ?? 'unknown'`. -/
def lastOpName (g : GraphJson.GraphDoc) : String :=
  match g.nodes.getLast? with
  | some n => n.op
  | none => "unknown"

/-- The verification stage of `runSingleTest` (run-conformance.js lines
123-138): one `assertOutputClose` call per expected output, all using the
snake_cased operator of the normalized graph's last node. -/
def runSingleTestCalls (graph : GraphJson.GraphResources) : List AssertCall :=
  let normalizedGraph := GraphJson.buildGraphJson graph
  let lastOp := lastOpName normalizedGraph
  graph.expectedOutputs.map fun kv => ⟨normalizeOpName lastOp, kv.1⟩

/-- Result of `runSingleTest` for one case, as observed by the main loop
(execution crosses the process boundary, so it enters the model as data). -/
inductive CaseOutcome where
  | pass
  | skip (reason : String)
  | fail (message : String)
deriving DecidableEq, Repr

/-- One extracted test case: `valid` models
`test && typeof test === 'object' && test.graph`. -/
structure Case where
  name : String
  valid : Bool
  outcome : CaseOutcome
deriving DecidableEq, Repr

/-- One fixture file as the main loop sees it: extraction either fails
with a file-level error or yields the selected test cases. -/
inductive FileSpec where
  | parseError (fileName message : String)
  | ok (fileName : String) (tests : List Case)

structure RunOptions where
  stopOnFail : Bool
  variants : List String
  limitTests : Option Nat
deriving DecidableEq, Repr

/-- The run counters of `main`, the execution log (names of cases actually
handed to `runSingleTest`, in order), and the `halted` flag. -/
structure RunState where
  passed : Nat
  failed : Nat
  skipped : Nat
  executed : List String
  halted : Bool
deriving DecidableEq, Repr

def initState : RunState := ⟨0, 0, 0, [], false⟩

/-- Models `.slice(0, opts.limitTests)` where `none` models the Infinity default. -/
def takeLimit (limit : Option Nat) (tests : List Case) : List Case :=
  match limit with
  | none => tests
  | some n => tests.take n

/-- The body of the per-test loop of `main` (lines 249-307): invalid cases
are recorded as skips without running; otherwise `runSingleTest` runs and
its outcome is recorded, a failure under `--stop-on-fail` raising the
`halted` flag. -/
def runCase (opts : RunOptions) (st : RunState) (t : Case) : RunState :=
  if !t.valid then { st with skipped := st.skipped + 1 }
  else
    let st := { st with executed := st.executed ++ [t.name] }
    match t.outcome with
    | .pass => { st with passed := st.passed + 1 }
    | .skip _ => { st with skipped := st.skipped + 1 }
    | .fail _ =>
      let st := { st with failed := st.failed + 1 }
      if opts.stopOnFail then { st with halted := true } else st

/-- The per-test loop; a raised `halted` flag breaks out. -/
def runTests (opts : RunOptions) (st : RunState) : List Case → RunState
  | [] => st
  | t :: rest =>
    let st1 := runCase opts st t
    if st1.halted then st1 else runTests opts st1 rest

/-- The per-variant loop; `if (halted) break` after the inner loop. -/
def runVariants (opts : RunOptions) (st : RunState) (tests : List Case) :
    List String → RunState
  | [] => st
  | _ :: rest =>
    let st1 := runTests opts st tests
    if st1.halted then st1 else runVariants opts st1 tests rest

/-- The file loop of `main`: a file-level extraction error is recorded as
one failure and the run continues with the next file; `if (halted) break`
after the variant loop. -/
def runFiles (opts : RunOptions) (st : RunState) : List FileSpec → RunState
  | [] => st
  | f :: rest =>
    match f with
    | .parseError _ _ => runFiles opts { st with failed := st.failed + 1 } rest
    | .ok _ tests =>
      let st1 := runVariants opts st (takeLimit opts.limitTests tests) opts.variants
      if st1.halted then st1 else runFiles opts st1 rest

/-- The sequential driver of `main` over the selected files. -/
def runMain (opts : RunOptions) (files : List FileSpec) : RunState :=
  runFiles opts initState files

end Conformance

/-! ## Auxiliary definitions and concrete instances -/

/-- Models `Array.isArray` on a modelled JS value. -/
def Extract.isArr : GraphJson.JsValue → Bool
  | .arr _ => true
  | _ => false

/-- Apply `f` to the last element of a list, if any: the shape of the
in-place update `operators[operators.length - 1].outputs = name`. -/
def Shim.mapLastOp (f : Shim.BuildOperator → Shim.BuildOperator) :
    List Shim.BuildOperator → List Shim.BuildOperator
  | [] => []
  | [op] => [f op]
  | op :: op2 :: rest => op :: Shim.mapLastOp f (op2 :: rest)

/-- A concrete two-operator graph-resources structure. -/
def twoOpResources : GraphJson.GraphResources :=
  { inputs := [("x", ⟨⟨"float32", [2]⟩, [], false⟩)]
    operators :=
      [⟨"relu", [[("a", .str "x")]], .single "t0"⟩,
       ⟨"relu", [[("a", .str "t0")]], .single "out"⟩]
    expectedOutputs := [("out", ⟨⟨"float32", [2]⟩, []⟩)] }

/-- A concrete builder session with two recorded nodes: node 0 produces
the operand `tmp_0`, node 1 produces `tmp_1`. -/
def twoNodeBuilder : Shim.BuilderState :=
  { inputs := [("x", ⟨[], ⟨"float32", [2]⟩, false⟩)]
    nodes :=
      [⟨"op_0", "relu", [[("a", .str "x")]], "tmp_0"⟩,
       ⟨"op_1", "relu", [[("a", .str "tmp_0")]], "tmp_1"⟩]
    tempId := 2 }

/-- Models `build` is called with the caller-chosen name `out` designating the
operand `tmp_0`, which node 0 produces. -/
def namedOutMap : List (String × Shim.MLOperand) :=
  [("out", ⟨"tmp_0", "float32", []⟩)]

/-! ## Helper lemmas -/

namespace Tolerance

theorem f32IsNaN_eq_false_of_finite {x : Nat} (h : f32IsFinite x = true) :
    f32IsNaN x = false := by
  unfold f32IsFinite at h
  simp only [bne_iff_ne, ne_eq] at h
  simp [f32IsNaN, h]

theorem f32Exp_eq_255_of_not_finite {x : Nat} (h : f32IsFinite x = false) :
    f32Exp x = 255 := by
  unfold f32IsFinite at h
  simpa using h

theorem ne_of_finite_of_not_finite {a b : Nat} (ha : f32IsFinite a = true)
    (hb : f32IsFinite b = false) : a ≠ b := by
  intro hab
  rw [hab] at ha
  rw [f32IsFinite, f32Exp_eq_255_of_not_finite hb] at ha
  simp at ha

theorem f32IsFinite_of_isZero {x : Nat} (h : f32IsZero x = true) :
    f32IsFinite x = true := by
  unfold f32IsZero at h
  simp only [Bool.and_eq_true, beq_iff_eq] at h
  simp [f32IsFinite, h.1]

theorem strictEq_not_nan {x y : Nat} (h : strictEq x y = true) :
    f32IsNaN x = false ∧ f32IsNaN y = false := by
  unfold strictEq at h
  split at h
  · exact absurd h (by simp)
  · next hcond =>
    simp only [Bool.or_eq_true, not_or, Bool.not_eq_true] at hcond
    exact hcond

theorem strictEq_cases {x y : Nat} (h : strictEq x y = true) :
    (f32IsZero x = true ∧ f32IsZero y = true) ∨ x = y := by
  unfold strictEq at h
  split at h
  · exact absurd h (by simp)
  · split at h
    · next hz => exact Or.inl (by simpa using hz)
    · exact Or.inr (by simpa using h)

theorem strictEq_refl_of_not_nan {x : Nat} (h : f32IsNaN x = false) :
    strictEq x x = true := by
  unfold strictEq
  rw [h]
  simp

theorem strictEq_comm (a b : Nat) : strictEq a b = strictEq b a := by
  unfold strictEq
  rw [Bool.or_comm, Bool.and_comm]
  by_cases h : a = b
  · subst h; rfl
  · have h1 : (a == b) = false := by simpa using h
    have h2 : (b == a) = false := by simpa using Ne.symm h
    rw [h1, h2]

theorem ulpDistanceF32_isSome_of_finite {a e : Nat} (ha : f32IsFinite a = true)
    (he : f32IsFinite e = true) : ∃ v, ulpDistanceF32 a e = some v := by
  unfold ulpDistanceF32
  split
  · exact ⟨0, rfl⟩
  · rw [ha, he]
    simp

end Tolerance

/-! ## Claim C7 -/

/-- C7: `ulpDistanceF32` is symmetric on finite float32 values, zero on
equal arguments, and infinite when exactly one argument is non-finite. -/
theorem C7_ulp_distance_properties :
    (∀ a b : Nat, Tolerance.f32IsFinite a = true → Tolerance.f32IsFinite b = true →
      Tolerance.ulpDistanceF32 a b = Tolerance.ulpDistanceF32 b a) ∧
    (∀ a : Nat, Tolerance.ulpDistanceF32 a a = some 0) ∧
    (∀ a b : Nat, Tolerance.f32IsFinite a = true → Tolerance.f32IsFinite b = false →
      Tolerance.ulpDistanceF32 a b = none ∧ Tolerance.ulpDistanceF32 b a = none) := by
  refine ⟨?_, ?_, ?_⟩
  · intro a b ha hb
    by_cases hab : a = b
    · subst hab; rfl
    · have hna := Tolerance.f32IsNaN_eq_false_of_finite ha
      have hnb := Tolerance.f32IsNaN_eq_false_of_finite hb
      have h1 : (a == b) = false := by simpa using hab
      have h2 : (b == a) = false := by simpa using Ne.symm hab
      unfold Tolerance.ulpDistanceF32 Tolerance.objectIs
      rw [h1, h2, hna, hnb, ha, hb]
      simp only [Bool.false_and, Bool.or_false, Bool.and_false, Bool.and_self,
        Bool.not_true, if_false, Bool.false_eq_true, ite_false]
      congr 1
      rw [← Int.natAbs_neg, neg_sub]
  · intro a
    simp [Tolerance.ulpDistanceF32, Tolerance.objectIs]
  · intro a b ha hb
    have hna := Tolerance.f32IsNaN_eq_false_of_finite ha
    have hne : a ≠ b := Tolerance.ne_of_finite_of_not_finite ha hb
    have h1 : (a == b) = false := by simpa using hne
    have h2 : (b == a) = false := by simpa using Ne.symm hne
    have hzb : Tolerance.f32IsZero b = false := by
      cases hz : Tolerance.f32IsZero b with
      | false => rfl
      | true => rw [Tolerance.f32IsFinite_of_isZero hz] at hb; exact absurd hb (by simp)
    constructor
    · simp [Tolerance.ulpDistanceF32, Tolerance.objectIs, Tolerance.strictEq,
        h1, hna, ha, hb, hzb]
    · simp [Tolerance.ulpDistanceF32, Tolerance.objectIs, Tolerance.strictEq,
        h2, hna, ha, hb, hzb]

/-- C7 witness: concrete instances of the three parts (1.0 and 2.0 for
symmetry, and +infinity for the mixed case). -/
theorem C7_witness :
    Tolerance.ulpDistanceF32 0x3F800000 0x40000000 =
      Tolerance.ulpDistanceF32 0x40000000 0x3F800000 ∧
    Tolerance.ulpDistanceF32 0x3F800000 0x7F800000 = none := by
  refine ⟨C7_ulp_distance_properties.1 0x3F800000 0x40000000 (by decide) (by decide), ?_⟩
  exact (C7_ulp_distance_properties.2.2 0x3F800000 0x7F800000 (by decide) (by decide)).1

/-! ## Claim C2 -/

/-- C2: `assertOutputClose` checks data length first, then exact shape,
then element values, failing fast; with expected shape `[2,2]`, actual
shape `[4]` and identical data of length 4 it reports a shape mismatch
regardless of the element values. -/
theorem C2_verifier_check_order :
    (∀ (operatorName outputName : String) (expected actual : Tolerance.Tensor),
      expected.data.length ≠ actual.data.length →
      Tolerance.assertOutputClose operatorName outputName expected actual =
        some (.lengthMismatch outputName expected.data.length actual.data.length)) ∧
    (∀ (operatorName outputName : String) (expected actual : Tolerance.Tensor),
      expected.data.length = actual.data.length →
      expected.descriptor.shape ≠ actual.descriptor.shape →
      Tolerance.assertOutputClose operatorName outputName expected actual =
        some (.shapeMismatch outputName expected.descriptor.shape actual.descriptor.shape)) ∧
    (∀ (operatorName : String) (d : List Tolerance.Elem), d.length = 4 →
      Tolerance.assertOutputClose operatorName "output"
          ⟨⟨"float32", [2, 2]⟩, d⟩ ⟨⟨"float32", [4]⟩, d⟩ =
        some (.shapeMismatch "output" [2, 2] [4])) := by
  have part1 : ∀ (operatorName outputName : String) (expected actual : Tolerance.Tensor),
      expected.data.length ≠ actual.data.length →
      Tolerance.assertOutputClose operatorName outputName expected actual =
        some (.lengthMismatch outputName expected.data.length actual.data.length) := by
    intro operatorName outputName expected actual h
    unfold Tolerance.assertOutputClose
    simp [h]
  have part2 : ∀ (operatorName outputName : String) (expected actual : Tolerance.Tensor),
      expected.data.length = actual.data.length →
      expected.descriptor.shape ≠ actual.descriptor.shape →
      Tolerance.assertOutputClose operatorName outputName expected actual =
        some (.shapeMismatch outputName expected.descriptor.shape actual.descriptor.shape) := by
    intro operatorName outputName expected actual hlen hshape
    unfold Tolerance.assertOutputClose
    simp [hlen, hshape]
  refine ⟨part1, part2, ?_⟩
  intro operatorName d hd
  exact part2 operatorName "output" ⟨⟨"float32", [2, 2]⟩, d⟩ ⟨⟨"float32", [4]⟩, d⟩ rfl
    (by simp)

/-- C2 witness: the spec's concrete scenario with all-zero data. -/
theorem C2_witness :
    Tolerance.assertOutputClose "add" "output"
        ⟨⟨"float32", [2, 2]⟩, [.num 0, .num 0, .num 0, .num 0]⟩
        ⟨⟨"float32", [4]⟩, [.num 0, .num 0, .num 0, .num 0]⟩ =
      some (.shapeMismatch "output" [2, 2] [4]) :=
  C2_verifier_check_order.2.2 "add" [.num 0, .num 0, .num 0, .num 0] rfl

/-! ## Claim C3 -/

namespace Tolerance

theorem bool_and_eq_false (a b : Bool) : (a && b) = false ↔ a = false ∨ b = false := by
  cases a <;> cases b <;> simp

theorem ratLt_iff (x y : ℚ) : ratLt x y = true ↔ x < y := by
  rw [Rat.lt_def]
  simp [ratLt]

theorem ratLt_eq_false_iff (x y : ℚ) : ratLt x y = false ↔ y ≤ x := by
  constructor
  · intro h
    by_contra hc
    rw [not_le] at hc
    rw [(ratLt_iff x y).2 hc] at h
    exact absurd h (by simp)
  · intro h
    cases hb : ratLt x y with
    | false => rfl
    | true => exact absurd ((ratLt_iff x y).1 hb) (not_lt.2 h)

theorem ulpGtTol_eq_false_iff (ulp : Option Nat) (tol : Nat) :
    ulpGtTol ulp tol = false ↔ ∃ k, ulp = some k ∧ k ≤ tol := by
  cases ulp with
  | none => simp [ulpGtTol]
  | some v =>
    simp only [ulpGtTol, decide_eq_false_iff_not, Nat.not_lt, Option.some.injEq]
    constructor
    · intro h; exact ⟨v, rfl, h⟩
    · intro ⟨k, hk, hle⟩; omega

/-- Acceptance of one element when both values are finite: close in
absolute difference or close in ULPs. -/
theorem checkElem_finite_iff (op dt : String) (e a : Nat)
    (hfe : f32IsFinite e = true) (hfa : f32IsFinite a = true) :
    checkElem op dt e a = true ↔
      (ratAbs (ratSub (f32ToRat a) (f32ToRat e)) ≤ absTolFor op dt ∨
       ∃ k, ulpDistanceF32 a e = some k ∧ k ≤ ulpTolFor op) := by
  have hne := f32IsNaN_eq_false_of_finite hfe
  unfold checkElem
  rw [if_neg (by simp [hne]), if_neg (by simp [hfe, hfa])]
  simp only [Bool.not_eq_true']
  constructor
  · intro h
    rcases (bool_and_eq_false _ _).1 h with hb | hb
    · exact Or.inl ((ratLt_eq_false_iff _ _).1 hb)
    · exact Or.inr ((ulpGtTol_eq_false_iff _ _).1 hb)
  · intro h
    rcases h with h | h
    · exact (bool_and_eq_false _ _).2 (Or.inl ((ratLt_eq_false_iff _ _).2 h))
    · exact (bool_and_eq_false _ _).2 (Or.inr ((ulpGtTol_eq_false_iff _ _).2 h))

end Tolerance

/-- C3: a floating element is accepted iff both values are NaN, or both
are non-finite and identical, or the absolute difference is within the
operator's absolute tolerance, or the ULP distance is within the
operator's ULP budget; the tolerances default to 1e-4 (floating types) or
0 and to 4 ULPs when the operator has no entry; for `add` the budget is 1
and the spec's 1.0-vs-1.0000001 / 1.0-vs-1.001 examples pass and fail. -/
theorem C3_float_element_acceptance :
    (∀ (operatorName dataType : String) (e a : Nat),
      Tolerance.checkElem operatorName dataType e a = true ↔
        ((Tolerance.f32IsNaN e = true ∧ Tolerance.f32IsNaN a = true) ∨
         ((Tolerance.f32IsFinite e = false ∧ Tolerance.f32IsFinite a = false) ∧
            Tolerance.strictEq e a = true) ∨
         (Tolerance.f32IsFinite e = true ∧ Tolerance.f32IsFinite a = true ∧
            Tolerance.ratAbs (Tolerance.ratSub (Tolerance.f32ToRat a) (Tolerance.f32ToRat e)) ≤
              Tolerance.absTolFor operatorName dataType) ∨
         (∃ k, Tolerance.ulpDistanceF32 a e = some k ∧
            k ≤ Tolerance.ulpTolFor operatorName))) ∧
    (∀ operatorName dataType, Tolerance.OP_ABS_TOL operatorName dataType = none →
      Tolerance.absTolFor operatorName dataType =
        (if Tolerance.strStartsWith dataType "float" then mkRat 1 10000 else 0)) ∧
    (∀ operatorName, Tolerance.OP_ULP.lookup operatorName = none →
      Tolerance.ulpTolFor operatorName = 4) ∧
    Tolerance.ulpTolFor "add" = 1 ∧
    Tolerance.checkElem "add" "float32" 0x3F800000 0x3F800001 = true ∧
    Tolerance.checkElem "add" "float32" 0x3F800000 0x3F8020C5 = false := by
  refine ⟨?_, ?_, ?_, by decide, by decide, by decide⟩
  · intro operatorName dataType e a
    by_cases h1 : (Tolerance.f32IsNaN e && Tolerance.f32IsNaN a) = true
    · simp only [Bool.and_eq_true] at h1
      unfold Tolerance.checkElem
      rw [if_pos (by simp [h1.1, h1.2])]
      simp [h1.1, h1.2]
    · have h1' : ¬(Tolerance.f32IsNaN e = true ∧ Tolerance.f32IsNaN a = true) := by
        simpa [Bool.and_eq_true] using h1
      by_cases h2 : (!Tolerance.f32IsFinite e || !Tolerance.f32IsFinite a) = true
      · have hL : Tolerance.checkElem operatorName dataType e a = Tolerance.strictEq e a := by
          unfold Tolerance.checkElem
          rw [if_neg h1, if_pos h2]
        rw [hL]
        simp only [Bool.or_eq_true, Bool.not_eq_true'] at h2
        constructor
        · intro hse
          rcases Tolerance.strictEq_cases hse with hz | heq
          · have hfe := Tolerance.f32IsFinite_of_isZero hz.1
            have hfa := Tolerance.f32IsFinite_of_isZero hz.2
            rcases h2 with h | h
            · rw [hfe] at h; exact absurd h (by simp)
            · rw [hfa] at h; exact absurd h (by simp)
          · subst heq
            rcases h2 with h | h
            · exact Or.inr (Or.inl ⟨⟨h, h⟩, hse⟩)
            · exact Or.inr (Or.inl ⟨⟨h, h⟩, hse⟩)
        · intro hr
          rcases hr with hd1 | hd2 | hd3 | hd4
          · exact absurd hd1 h1'
          · exact hd2.2
          · rcases h2 with h | h
            · rw [hd3.1] at h; exact absurd h (by simp)
            · rw [hd3.2.1] at h; exact absurd h (by simp)
          · obtain ⟨k, hk, _⟩ := hd4
            unfold Tolerance.ulpDistanceF32 at hk
            split at hk
            · next hobj =>
              unfold Tolerance.objectIs at hobj
              simp only [Bool.or_eq_true, beq_iff_eq, Bool.and_eq_true] at hobj
              rcases hobj with heq | hnan
              · subst heq
                cases hna : Tolerance.f32IsNaN a with
                | true => exact absurd ⟨hna, hna⟩ h1'
                | false => exact Tolerance.strictEq_refl_of_not_nan hna
              · exact absurd ⟨hnan.2, hnan.1⟩ h1'
            · split at hk
              · split at hk
                · next hstr =>
                  rw [Tolerance.strictEq_comm]
                  exact hstr
                · exact absurd hk (by simp)
              · next hnf =>
                have hboth : Tolerance.f32IsFinite a = true ∧
                    Tolerance.f32IsFinite e = true := by
                  simp only [Bool.not_eq_true', Bool.not_eq_false,
                    Bool.and_eq_true] at hnf
                  exact hnf
                rcases h2 with h | h
                · rw [hboth.2] at h; exact absurd h (by simp)
                · rw [hboth.1] at h; exact absurd h (by simp)
      · simp only [Bool.or_eq_true, Bool.not_eq_true', not_or, Bool.not_eq_false] at h2
        obtain ⟨hfe, hfa⟩ := h2
        have hne := Tolerance.f32IsNaN_eq_false_of_finite hfe
        have hna := Tolerance.f32IsNaN_eq_false_of_finite hfa
        rw [Tolerance.checkElem_finite_iff operatorName dataType e a hfe hfa]
        simp [hne, hna, hfe, hfa]
  · intro operatorName dataType h
    simp [Tolerance.absTolFor, h]
  · intro operatorName h
    simp [Tolerance.ulpTolFor, h]

/-- C3 witness: the default tolerances for an operator (`neg`) with no
table entry. -/
theorem C3_witness :
    Tolerance.absTolFor "neg" "float32" =
      (if Tolerance.strStartsWith "float32" "float" then mkRat 1 10000 else 0) ∧
    Tolerance.ulpTolFor "neg" = 4 :=
  ⟨C3_float_element_acceptance.2.1 "neg" "float32" (by decide),
   C3_float_element_acceptance.2.2.1 "neg" (by decide)⟩

/-! ## Claim C4 -/

namespace GraphJson

theorem buildNodes_length (ops : List Operator) (start : Nat) :
    (buildNodes ops start).length = ops.length := by
  induction ops generalizing start with
  | nil => rfl
  | cons op rest ih => simp [buildNodes, ih]

theorem buildNodes_get_id (ops : List Operator) (start i : Nat)
    (h : i < (buildNodes ops start).length) :
    ((buildNodes ops start).get ⟨i, h⟩).id = "op_" ++ toString (start + i) := by
  induction ops generalizing start i with
  | nil => simp [buildNodes] at h
  | cons op rest ih =>
    cases i with
    | zero => rfl
    | succ n =>
      have hn : n < (buildNodes rest (start + 1)).length := by
        simpa [buildNodes] using h
      have := ih (start + 1) n hn
      have harith : start + 1 + n = start + (n + 1) := by omega
      rw [harith] at this
      simpa [buildNodes] using this

theorem buildNodes_map_op (ops : List Operator) (start : Nat) :
    (buildNodes ops start).map Node.op = ops.map Operator.name := by
  induction ops generalizing start with
  | nil => rfl
  | cons op rest ih => simp [buildNodes, buildNode, normalizeOpName, ih]

end GraphJson

/-- C4: the Normalizer emits exactly one node per operator, and the node
at position `index` has id `op_<index>`, following source order. -/
theorem C4_normalizer_node_ids (gr : GraphJson.GraphResources) :
    (GraphJson.buildGraphJson gr).nodes.length = gr.operators.length ∧
    ∀ i (h : i < (GraphJson.buildGraphJson gr).nodes.length),
      ((GraphJson.buildGraphJson gr).nodes.get ⟨i, h⟩).id = "op_" ++ toString i := by
  constructor
  · simpa [GraphJson.buildGraphJson] using GraphJson.buildNodes_length gr.operators 0
  · intro i h
    have := GraphJson.buildNodes_get_id gr.operators 0 i
      (by simpa [GraphJson.buildGraphJson] using h)
    simpa [GraphJson.buildGraphJson] using this

/-- C4 witness: the second node of the concrete two-operator graph is
`op_1`. -/
theorem C4_witness :
    ((GraphJson.buildGraphJson twoOpResources).nodes.get
      ⟨1, by simp [GraphJson.buildGraphJson, GraphJson.buildNodes]⟩).id = "op_1" :=
  (C4_normalizer_node_ids twoOpResources).2 1
    (by simp [GraphJson.buildGraphJson, GraphJson.buildNodes])

/-! ## Claim C9 -/

/-- C9: with stop-on-fail enabled and three sequential cases of which
case 2 fails, exactly one failure is recorded, case 3 is never handed to
`runSingleTest`, and the run halts: within one file, across the file
boundary, and across the variant boundary. -/
theorem C9_stop_on_fail_halts :
    (Conformance.runMain ⟨true, ["cpu"], none⟩
        [.ok "file1" [⟨"case1", true, .pass⟩, ⟨"case2", true, .fail "boom"⟩,
                      ⟨"case3", true, .pass⟩]] =
      ⟨1, 1, 0, ["case1", "case2"], true⟩) ∧
    (Conformance.runMain ⟨true, ["cpu"], none⟩
        [.ok "file1" [⟨"case1", true, .pass⟩, ⟨"case2", true, .fail "boom"⟩],
         .ok "file2" [⟨"case3", true, .pass⟩]] =
      ⟨1, 1, 0, ["case1", "case2"], true⟩) ∧
    (Conformance.runMain ⟨true, ["cpu", "gpu"], none⟩
        [.ok "file1" [⟨"case1", true, .pass⟩, ⟨"case2", true, .fail "boom"⟩,
                      ⟨"case3", true, .pass⟩]] =
      ⟨1, 1, 0, ["case1", "case2"], true⟩) :=
  ⟨by decide, by decide, by decide⟩

/-! ## Claim C5 -/

/-- C5: when the worker process exits, the Bridge rejects every
outstanding pending entry with a process-exit error and the pending table
is empty afterwards. -/
theorem C5_exit_rejects_all_pending (st : Bridge.ClientState) (code : Option Int)
    (signal : Option String) :
    (Bridge.onExit st code signal).1.pending = [] ∧
    (Bridge.onExit st code signal).2 =
      st.pending.map (fun kv => .reject kv.2 (.processExit code signal)) ∧
    ∀ kv ∈ st.pending,
      Bridge.Settle.reject kv.2 (Bridge.RunnerError.processExit code signal) ∈
        (Bridge.onExit st code signal).2 := by
  refine ⟨rfl, rfl, ?_⟩
  intro kv hkv
  exact List.mem_map_of_mem _ hkv

/-- C5 witness: a table with two outstanding requests; both completion
handles receive the process-exit rejection. -/
theorem C5_witness :
    Bridge.Settle.reject 7 (Bridge.RunnerError.processExit (some 1) none) ∈
      (Bridge.onExit ⟨[("id1", 7), ("id2", 8)]⟩ (some 1) none).2 :=
  (C5_exit_rejects_all_pending ⟨[("id1", 7), ("id2", 8)]⟩ (some 1) none).2.2
    ("id1", 7) (by simp)

/-! ## Claim C8 -/

/-- C8: the extractor fails exactly when no matching `<name>Tests` array
declaration exists, evaluation raises, the execution budget is exceeded,
or the captured value is not an array; otherwise it returns the captured
array. -/
theorem C8_extractor_error_conditions (sourceText sourceName : String)
    (evalOutcome : Extract.EvalOutcome) :
    ((Extract.extractTestsFromSource sourceText sourceName evalOutcome).isError = true ↔
      Extract.findTestsArrayName sourceText = none ∨
      (∃ m, evalOutcome = .raise m) ∨ evalOutcome = .timeout ∨
      (∃ v, evalOutcome = .ok v ∧ Extract.isArr v = false)) ∧
    (∀ ts, Extract.findTestsArrayName sourceText ≠ none →
      evalOutcome = .ok (.arr ts) →
      Extract.extractTestsFromSource sourceText sourceName evalOutcome = .ok ts) := by
  constructor
  · cases hf : Extract.findTestsArrayName sourceText with
    | none =>
      refine iff_of_true ?_ (Or.inl rfl)
      simp [Extract.extractTestsFromSource, hf, Extract.ExtractResult.isError]
    | some w =>
      cases evalOutcome with
      | raise m =>
        refine iff_of_true ?_ (Or.inr (Or.inl ⟨m, rfl⟩))
        simp [Extract.extractTestsFromSource, hf, Extract.ExtractResult.isError]
      | timeout =>
        refine iff_of_true ?_ (Or.inr (Or.inr (Or.inl rfl)))
        simp [Extract.extractTestsFromSource, hf, Extract.ExtractResult.isError]
      | ok v =>
        cases v with
        | arr ts =>
          refine iff_of_false ?_ ?_
          · simp [Extract.extractTestsFromSource, hf, Extract.ExtractResult.isError]
          · intro hr
            rcases hr with h | ⟨m, hm⟩ | h | ⟨v', hv, hna⟩
            · exact absurd h (by simp)
            · exact absurd hm (by simp)
            · exact absurd h (by simp)
            · cases hv
              exact absurd hna (by simp [Extract.isArr])
        | str s =>
          refine iff_of_true ?_ (Or.inr (Or.inr (Or.inr ⟨.str s, rfl, rfl⟩)))
          simp [Extract.extractTestsFromSource, hf, Extract.ExtractResult.isError]
        | num q =>
          refine iff_of_true ?_ (Or.inr (Or.inr (Or.inr ⟨.num q, rfl, rfl⟩)))
          simp [Extract.extractTestsFromSource, hf, Extract.ExtractResult.isError]
        | jsBool b =>
          refine iff_of_true ?_ (Or.inr (Or.inr (Or.inr ⟨.jsBool b, rfl, rfl⟩)))
          simp [Extract.extractTestsFromSource, hf, Extract.ExtractResult.isError]
        | bigint z =>
          refine iff_of_true ?_ (Or.inr (Or.inr (Or.inr ⟨.bigint z, rfl, rfl⟩)))
          simp [Extract.extractTestsFromSource, hf, Extract.ExtractResult.isError]
        | null =>
          refine iff_of_true ?_ (Or.inr (Or.inr (Or.inr ⟨.null, rfl, rfl⟩)))
          simp [Extract.extractTestsFromSource, hf, Extract.ExtractResult.isError]
        | obj entries =>
          refine iff_of_true ?_ (Or.inr (Or.inr (Or.inr ⟨.obj entries, rfl, rfl⟩)))
          simp [Extract.extractTestsFromSource, hf, Extract.ExtractResult.isError]
  · intro ts hne hok
    subst hok
    cases hf : Extract.findTestsArrayName sourceText with
    | none => exact absurd hf hne
    | some w => simp [Extract.extractTestsFromSource, hf]

/-- C8 witness: a fixture source with a matching declaration whose
evaluation captures an array is extracted successfully. -/
theorem C8_witness :
    Extract.extractTestsFromSource "const fooTests = [\n];" "foo.https.any.js"
        (.ok (.arr [])) = .ok [] :=
  (C8_extractor_error_conditions "const fooTests = [\n];" "foo.https.any.js"
    (.ok (.arr []))).2 [] (by decide) rfl

/-! ## Claim C10 -/

theorem buildNodes_getLast?_op (ops : List GraphJson.Operator) (start : Nat) :
    ((GraphJson.buildNodes ops start).getLast?).map GraphJson.Node.op =
      (ops.getLast?).map GraphJson.Operator.name := by
  induction ops generalizing start with
  | nil => rfl
  | cons op rest ih =>
    cases rest with
    | nil => rfl
    | cons op2 rest2 =>
      have h1 : (GraphJson.buildNodes (op :: op2 :: rest2) start).getLast? =
          (GraphJson.buildNodes (op2 :: rest2) (start + 1)).getLast? := by
        simp [GraphJson.buildNodes]
      rw [h1, ih]
      simp

theorem lastOpName_buildGraphJson (gr : GraphJson.GraphResources)
    (h : gr.operators ≠ []) :
    Conformance.lastOpName (GraphJson.buildGraphJson gr) =
      (gr.operators.getLast h).name := by
  have hmap := buildNodes_getLast?_op gr.operators 0
  rw [List.getLast?_eq_getLast_of_ne_nil h] at hmap
  cases hL : (GraphJson.buildNodes gr.operators 0).getLast? with
  | none => rw [hL] at hmap; simp at hmap
  | some n =>
    rw [hL] at hmap
    simp only [Option.map_some'] at hmap
    have hop : n.op = (gr.operators.getLast h).name := by
      injection hmap
    simp [Conformance.lastOpName, GraphJson.buildGraphJson, hL, hop]

/-- C10: every verification call of `runSingleTest` uses, for every
expected output, the snake_cased operator of the normalized graph's last
node (so outputs of earlier nodes are compared under the final node's
budget); `reduceSum` snake-cases to `reduce_sum`. -/
theorem C10_tolerance_uses_last_node_op :
    (∀ (graph : GraphJson.GraphResources) (h : graph.operators ≠ []),
      ∀ call ∈ Conformance.runSingleTestCalls graph,
        call.operatorName =
          Conformance.normalizeOpName ((graph.operators.getLast h).name)) ∧
    Conformance.normalizeOpName "reduceSum" = "reduce_sum" := by
  constructor
  · intro graph h call hc
    unfold Conformance.runSingleTestCalls at hc
    simp only [List.mem_map] at hc
    obtain ⟨kv, hkv, rfl⟩ := hc
    simp [lastOpName_buildGraphJson graph h]
  · decide

/-- C10 witness: in the concrete two-operator graph the single expected
output is verified under the last node's operator. -/
theorem C10_witness :
    Conformance.AssertCall.operatorName ⟨"relu", "out"⟩ =
      Conformance.normalizeOpName
        ((twoOpResources.operators.getLast (by simp [twoOpResources])).name) :=
  C10_tolerance_uses_last_node_op.1 twoOpResources (by simp [twoOpResources])
    ⟨"relu", "out"⟩ (by decide)

/-! ## Claim C1 -/

namespace Shim

theorem mapLastOp_congr (f g : BuildOperator → BuildOperator)
    (h : ∀ x, f x = g x) : ∀ l, mapLastOp f l = mapLastOp g l
  | [] => rfl
  | [op] => by simp [mapLastOp, h]
  | op :: op2 :: rest => by
    simp only [mapLastOp]
    rw [mapLastOp_congr f g h (op2 :: rest)]

theorem mapLastOp_id : ∀ l, mapLastOp (fun op => op) l = l
  | [] => rfl
  | [_] => rfl
  | op :: op2 :: rest => by
    simp only [mapLastOp]
    rw [mapLastOp_id (op2 :: rest)]

theorem mapLastOp_comp (f g : BuildOperator → BuildOperator) :
    ∀ l, mapLastOp f (mapLastOp g l) = mapLastOp (fun x => f (g x)) l
  | [] => rfl
  | [_] => rfl
  | op :: op2 :: rest => by
    obtain ⟨y, ys, hy⟩ : ∃ y ys, mapLastOp g (op2 :: rest) = y :: ys := by
      cases rest with
      | nil => exact ⟨g op2, [], rfl⟩
      | cons a t => exact ⟨op2, mapLastOp g (a :: t), rfl⟩
    have h1 : mapLastOp f (mapLastOp g (op :: op2 :: rest)) =
        op :: mapLastOp f (mapLastOp g (op2 :: rest)) := by
      show mapLastOp f (op :: mapLastOp g (op2 :: rest)) = _
      rw [hy]
      rfl
    rw [h1, mapLastOp_comp f g (op2 :: rest)]
    rfl

theorem renameLastOutput_eq_mapLastOp (name : String) :
    ∀ l, renameLastOutput l name = mapLastOp (fun op => { op with outputs := name }) l
  | [] => rfl
  | [_] => rfl
  | op :: op2 :: rest => by
    simp only [renameLastOutput, mapLastOp]
    rw [renameLastOutput_eq_mapLastOp name (op2 :: rest)]

theorem applyNamedOutput_eq_mapLastOp (l : List BuildOperator)
    (e : String × MLOperand) :
    applyNamedOutput l e =
      mapLastOp
        (fun op => { op with outputs := if e.2.name != e.1 then e.1 else op.outputs })
        l := by
  unfold applyNamedOutput
  cases he : (e.2.name != e.1) with
  | true =>
    cases l with
    | nil => rfl
    | cons a rest =>
      rw [if_pos (by simp)]
      rw [renameLastOutput_eq_mapLastOp]
      exact mapLastOp_congr _ _ (fun x => rfl) (a :: rest)
  | false =>
    rw [if_neg (by simp)]
    exact ((mapLastOp_congr _ (fun op => op) (fun x => rfl) l).trans
      (mapLastOp_id l)).symm

theorem foldl_applyNamedOutput :
    ∀ (named : List (String × MLOperand)) (ops : List BuildOperator),
    named.foldl applyNamedOutput ops =
      mapLastOp (fun op => { op with outputs := finalOutputName named op.outputs }) ops
  | [], ops => by
    simp only [List.foldl_nil]
    exact ((mapLastOp_congr _ (fun op => op) (fun x => rfl) ops).trans
      (mapLastOp_id ops)).symm
  | e :: rest, ops => by
    simp only [List.foldl_cons]
    rw [foldl_applyNamedOutput rest (applyNamedOutput ops e)]
    rw [applyNamedOutput_eq_mapLastOp, mapLastOp_comp]
    exact mapLastOp_congr _ _ (fun x => rfl) ops

theorem mapLastOp_length (f : BuildOperator → BuildOperator) :
    ∀ l, (mapLastOp f l).length = l.length
  | [] => rfl
  | [_] => rfl
  | op :: op2 :: rest => by
    simp only [mapLastOp, List.length_cons]
    rw [mapLastOp_length f (op2 :: rest)]
    simp

theorem mapLastOp_get_of_lt (f : BuildOperator → BuildOperator) :
    ∀ (l : List BuildOperator) (i : Nat) (h : i + 1 < l.length)
      (h2 : i < (mapLastOp f l).length),
    (mapLastOp f l).get ⟨i, h2⟩ = l.get ⟨i, by omega⟩
  | [], i, h, _ => by simp at h
  | [_], i, h, _ => by simp at h
  | op :: op2 :: rest, 0, _, _ => rfl
  | op :: op2 :: rest, i + 1, h, h2 => by
    have hrec := mapLastOp_get_of_lt f (op2 :: rest) i (by simpa using h)
      (by simpa [mapLastOp] using h2)
    simpa [mapLastOp] using hrec

theorem mapLastOp_get_of_last (f : BuildOperator → BuildOperator) :
    ∀ (l : List BuildOperator) (i : Nat) (h : i < l.length)
      (hl : i + 1 = l.length) (h2 : i < (mapLastOp f l).length),
    (mapLastOp f l).get ⟨i, h2⟩ = f (l.get ⟨i, h⟩)
  | [], i, h, _, _ => by simp at h
  | [_], 0, _, _, _ => rfl
  | [_], i + 1, h, _, _ => by simp at h
  | op :: op2 :: rest, 0, _, hl, _ => by simp at hl
  | op :: op2 :: rest, i + 1, h, hl, h2 => by
    have hrec := mapLastOp_get_of_last f (op2 :: rest) i (by simpa using h)
      (by simpa using hl) (by simpa [mapLastOp] using h2)
    simpa [mapLastOp] using hrec

theorem emitNodes_length : ∀ (ops : List BuildOperator) (start : Nat),
    (emitNodes ops start).length = ops.length
  | [], _ => rfl
  | _ :: rest, start => by
    simp only [emitNodes, List.length_cons]
    rw [emitNodes_length rest (start + 1)]

theorem emitNodes_get : ∀ (ops : List BuildOperator) (start i : Nat)
    (h : i < ops.length) (h2 : i < (emitNodes ops start).length),
    (emitNodes ops start).get ⟨i, h2⟩ = emitNode (start + i) (ops.get ⟨i, h⟩)
  | [], _, i, h, _ => by simp at h
  | op :: rest, start, 0, _, _ => rfl
  | op :: rest, start, i + 1, h, h2 => by
    have hrec := emitNodes_get rest (start + 1) i (by simpa using h)
      (by simpa [emitNodes] using h2)
    have harith : start + 1 + i = start + (i + 1) := by omega
    rw [harith] at hrec
    simpa [emitNodes] using hrec

end Shim

/-- C1 counterexample: in the two-node builder session, `build` is asked
to name the operand `tmp_0` — produced by node 0 — as `out`; the emitted
document keeps node 0's output `tmp_0` unchanged and instead renames node
1's output to `out`, so the named output is not assigned by renaming the
producing node's output. -/
theorem C1_counterexample :
    (twoNodeBuilder.nodes.map Shim.BuilderNode.outputs = ["tmp_0", "tmp_1"]) ∧
    (namedOutMap.map (fun kv => (kv.1, kv.2.name)) = [("out", "tmp_0")]) ∧
    ((Shim.build twoNodeBuilder namedOutMap).nodes.map Shim.ShimNode.outputs =
      [["tmp_0"], ["out"]]) :=
  ⟨rfl, rfl, rfl⟩

/-- C1 (amended): `build(namedOutputs)` renames the output of the LAST
recorded node — not the producing node — once per named-output entry whose
operand name differs from the chosen name (the last such entry wins);
every non-final node's emitted output list is its originally recorded
placeholder name. -/
theorem C1_build_renames_last_node (st : Shim.BuilderState)
    (named : List (String × Shim.MLOperand)) :
    (Shim.build st named).nodes.length = st.nodes.length ∧
    ∀ i (h : i < st.nodes.length) (h2 : i < (Shim.build st named).nodes.length),
      ((Shim.build st named).nodes.get ⟨i, h2⟩).outputs =
        (if i + 1 < st.nodes.length then [(st.nodes.get ⟨i, h⟩).outputs]
         else [Shim.finalOutputName named ((st.nodes.get ⟨i, h⟩).outputs)]) := by
  set F : Shim.BuildOperator → Shim.BuildOperator :=
    fun op => { op with outputs := Shim.finalOutputName named op.outputs } with hF
  set ops : List Shim.BuildOperator :=
    st.nodes.map fun n => Shim.BuildOperator.mk n.op n.arguments n.outputs with hops
  have hnodes : (Shim.build st named).nodes =
      Shim.emitNodes (Shim.mapLastOp F ops) 0 := by
    show Shim.emitNodes (named.foldl Shim.applyNamedOutput ops) 0 = _
    rw [Shim.foldl_applyNamedOutput]
  have hopslen : ops.length = st.nodes.length := by
    rw [hops, List.length_map]
  have hlen : (Shim.build st named).nodes.length = st.nodes.length := by
    rw [hnodes, Shim.emitNodes_length, Shim.mapLastOp_length, hopslen]
  refine ⟨hlen, ?_⟩
  intro i h h2
  have h2m : i < (Shim.mapLastOp F ops).length := by
    rw [Shim.mapLastOp_length, hopslen]
    exact h
  have hswap : (Shim.build st named).nodes.get ⟨i, h2⟩ =
      (Shim.emitNodes (Shim.mapLastOp F ops) 0).get
        ⟨i, by rw [← hnodes]; exact h2⟩ :=
    List.get_of_eq hnodes ⟨i, h2⟩
  rw [hswap,
    Shim.emitNodes_get (Shim.mapLastOp F ops) 0 i h2m
      (by rw [Shim.emitNodes_length]; exact h2m)]
  have hmem : i < ops.length := by rw [hopslen]; exact h
  have hget_map : ops.get ⟨i, hmem⟩ =
      Shim.BuildOperator.mk (st.nodes.get ⟨i, h⟩).op (st.nodes.get ⟨i, h⟩).arguments
        (st.nodes.get ⟨i, h⟩).outputs := by
    exact List.get_map _
  by_cases hlast : i + 1 < st.nodes.length
  · rw [if_pos hlast]
    rw [Shim.mapLastOp_get_of_lt F ops i (by rw [hopslen]; exact hlast) h2m]
    rw [hget_map]
    rfl
  · rw [if_neg hlast]
    have hleq : i + 1 = st.nodes.length := by omega
    rw [Shim.mapLastOp_get_of_last F ops i hmem (by rw [hopslen]; exact hleq) h2m]
    rw [hget_map]
    rfl

/-- C1 witness: the amended statement at the two-node session, index 1
(the final node): its emitted output is the fold of the named-output
entries over its placeholder name. -/
theorem C1_witness :
    ((Shim.build twoNodeBuilder namedOutMap).nodes.get ⟨1, by decide⟩).outputs =
      (if 1 + 1 < twoNodeBuilder.nodes.length then
        [(twoNodeBuilder.nodes.get ⟨1, by decide⟩).outputs]
       else
        [Shim.finalOutputName namedOutMap
          ((twoNodeBuilder.nodes.get ⟨1, by decide⟩).outputs)]) :=
  (C1_build_renames_last_node twoNodeBuilder namedOutMap).2 1 (by decide) (by decide)


/-! ## Claim C6 -/

namespace Bridge

theorem lookupId_mem : ∀ {p : List (String × Nat)} {id : String} {tok : Nat},
    lookupId p id = some tok → (id, tok) ∈ p := by
  intro p
  induction p with
  | nil => intro id tok h; simp [lookupId] at h
  | cons kv rest ih =>
    intro id tok h
    unfold lookupId at h
    split at h
    · next hk =>
      have hk2 : kv.1 = id := by simpa using hk
      have htok : kv.2 = tok := by simpa using h
      rw [← hk2, ← htok]
      exact List.mem_cons_self kv rest
    · exact List.mem_cons_of_mem kv (ih h)

theorem lookupId_eq_none_of_not_mem : ∀ {p : List (String × Nat)} {id : String},
    id ∉ p.map Prod.fst → lookupId p id = none := by
  intro p
  induction p with
  | nil => intro id _; rfl
  | cons kv rest ih =>
    intro id h
    simp only [List.map_cons, List.mem_cons, not_or] at h
    unfold lookupId
    rw [if_neg (by simpa using Ne.symm h.1)]
    exact ih h.2

theorem eraseId_sublist (id : String) :
    ∀ p : List (String × Nat), (eraseId p id).Sublist p := by
  intro p
  induction p with
  | nil => exact List.Sublist.refl []
  | cons kv rest ih =>
    unfold eraseId
    split
    · exact List.sublist_cons_self kv rest
    · exact List.Sublist.cons₂ kv ih

theorem lookupId_eraseId_self {p : List (String × Nat)} {id : String}
    (hk : (p.map Prod.fst).Nodup) : lookupId (eraseId p id) id = none := by
  induction p with
  | nil => rfl
  | cons kv rest ih =>
    simp only [List.map_cons, List.nodup_cons] at hk
    unfold eraseId
    split
    · next hkid =>
      have hkid2 : kv.1 = id := by simpa using hkid
      rw [← hkid2]
      exact lookupId_eq_none_of_not_mem hk.1
    · next hkid =>
      unfold lookupId
      rw [if_neg hkid]
      exact ih hk.2

theorem tok_mem_of_lookupId {p : List (String × Nat)} {id : String} {tok : Nat}
    (h : lookupId p id = some tok) : tok ∈ p.map Prod.snd := by
  have := lookupId_mem h
  exact List.mem_map_of_mem Prod.snd this

theorem tok_not_mem_eraseId : ∀ {p : List (String × Nat)} {id : String} {tok : Nat},
    (p.map Prod.fst).Nodup → (p.map Prod.snd).Nodup →
    lookupId p id = some tok → tok ∉ (eraseId p id).map Prod.snd := by
  intro p
  induction p with
  | nil => intro id tok _ _ h; simp [lookupId] at h
  | cons kv rest ih =>
    intro id tok hk ht h
    simp only [List.map_cons, List.nodup_cons] at hk ht
    unfold lookupId at h
    unfold eraseId
    split at h
    · next hkid =>
      have htok : kv.2 = tok := by simpa using h
      rw [if_pos hkid, ← htok]
      exact ht.1
    · next hkid =>
      rw [if_neg hkid]
      simp only [List.map_cons, List.mem_cons, not_or]
      constructor
      · intro heq
        have hmem2 : tok ∈ rest.map Prod.snd := tok_mem_of_lookupId h
        rw [heq] at hmem2
        exact ht.1 hmem2
      · exact ih hk.2 ht.2 h

/-- The settle action produced for a matched response message. -/
def settleOf (msg : Msg) (waiter : Nat) : Settle :=
  if msg.ok then Settle.resolve waiter (msg.outputs.getD [])
  else Settle.reject waiter (RunnerError.runtime
    ((msg.error.bind ErrInfo.kind).getD "RuntimeExecutionError")
    ((msg.error.bind ErrInfo.message).getD "runner error"))

theorem settleOf_token (msg : Msg) (waiter : Nat) :
    Settle.token (settleOf msg waiter) = waiter := by
  unfold settleOf
  cases msg.ok <;> rfl

theorem onLine_response_none (st : ClientState) (msg : Msg)
    (hL : lookupId st.pending msg.id = none) :
    onLine st (Line.response msg) = (st, []) := by
  simp only [onLine, hL]

theorem onLine_response_some (st : ClientState) (msg : Msg) (waiter : Nat)
    (hL : lookupId st.pending msg.id = some waiter) :
    onLine st (Line.response msg) =
      (⟨eraseId st.pending msg.id⟩, [settleOf msg waiter]) := by
  simp only [onLine, hL, settleOf]
  cases msg.ok <;> rfl

theorem settle_token_mem_of_processLines :
    ∀ (lines : List Line) (st : ClientState) (s : Settle),
    s ∈ (processLines st lines).2 → Settle.token s ∈ st.pending.map Prod.snd := by
  intro lines
  induction lines with
  | nil => intro st s hs; simp [processLines] at hs
  | cons l ls ih =>
    intro st s hs
    unfold processLines at hs
    simp only [List.mem_append] at hs
    cases l with
    | blank =>
      rcases hs with hs | hs
      · simp [onLine] at hs
      · exact ih st s hs
    | malformed =>
      rcases hs with hs | hs
      · simp [onLine] at hs
      · exact ih st s hs
    | response msg =>
      cases hL : lookupId st.pending msg.id with
      | none =>
        rw [onLine_response_none st msg hL] at hs
        rcases hs with hs | hs
        · simp at hs
        · exact ih st s hs
      | some waiter =>
        rw [onLine_response_some st msg waiter hL] at hs
        have hsub : ((eraseId st.pending msg.id).map Prod.snd).Sublist
            (st.pending.map Prod.snd) :=
          List.Sublist.map Prod.snd (eraseId_sublist msg.id st.pending)
        rcases hs with hs | hs
        · have hseq : s = settleOf msg waiter := by simpa using hs
          rw [hseq, settleOf_token]
          exact tok_mem_of_lookupId hL
        · exact hsub.mem (ih ⟨eraseId st.pending msg.id⟩ s hs)

theorem processLines_at_most_once :
    ∀ (lines : List Line) (st : ClientState) (tok : Nat),
    (st.pending.map Prod.fst).Nodup → (st.pending.map Prod.snd).Nodup →
    (processLines st lines).2.countP (fun s => Settle.token s == tok) ≤ 1 := by
  intro lines
  induction lines with
  | nil => intro st tok _ _; simp [processLines]
  | cons l ls ih =>
    intro st tok hk ht
    unfold processLines
    rw [List.countP_append]
    cases l with
    | blank =>
      have h0 : (onLine st Line.blank).2.countP (fun s => Settle.token s == tok) = 0 := rfl
      rw [h0]
      simpa using ih st tok hk ht
    | malformed =>
      have h0 : (onLine st Line.malformed).2.countP
          (fun s => Settle.token s == tok) = 0 := rfl
      rw [h0]
      simpa using ih st tok hk ht
    | response msg =>
      cases hL : lookupId st.pending msg.id with
      | none =>
        rw [onLine_response_none st msg hL]
        simpa using ih st tok hk ht
      | some waiter =>
        rw [onLine_response_some st msg waiter hL]
        dsimp only
        have hkE : ((eraseId st.pending msg.id).map Prod.fst).Nodup :=
          hk.sublist (List.Sublist.map Prod.fst (eraseId_sublist msg.id st.pending))
        have htE : ((eraseId st.pending msg.id).map Prod.snd).Nodup :=
          ht.sublist (List.Sublist.map Prod.snd (eraseId_sublist msg.id st.pending))
        by_cases hwt : waiter = tok
        · subst hwt
          have hc1 : ([settleOf msg waiter].countP
              (fun s => Settle.token s == waiter)) ≤ 1 := by
            simp [List.countP_cons, settleOf_token]
          have hc2 : ((processLines ⟨eraseId st.pending msg.id⟩ ls).2.countP
              (fun s => Settle.token s == waiter)) = 0 := by
            rw [List.countP_eq_zero]
            intro s hs
            have hmem := settle_token_mem_of_processLines ls
              ⟨eraseId st.pending msg.id⟩ s hs
            have hnot := tok_not_mem_eraseId hk ht hL
            intro hbeq
            have hteq : Settle.token s = waiter := by simpa using hbeq
            rw [hteq] at hmem
            exact hnot hmem
          omega
        · have hc1 : ([settleOf msg waiter].countP
              (fun s => Settle.token s == tok)) = 0 := by
            rw [List.countP_eq_zero]
            intro s hs
            have hseq : s = settleOf msg waiter := by simpa using hs
            rw [hseq]
            simp [settleOf_token, hwt]
          have hc2 : ((processLines ⟨eraseId st.pending msg.id⟩ ls).2.countP
              (fun s => Settle.token s == tok)) ≤ 1 :=
            ih ⟨eraseId st.pending msg.id⟩ tok hkE htE
          omega

end Bridge

/-- C6: a pending entry is settled at most once and removed when settled:
blank/malformed lines and unmatched ids have no effect; a matched id
produces exactly one settle action for its completion handle and erases
the entry (after which its id no longer resolves); over any sequence of
incoming lines each completion-handle token receives at most one settle
action. -/
theorem C6_settled_exactly_once_and_removed :
    (∀ st : Bridge.ClientState, Bridge.onLine st .malformed = (st, []) ∧
        Bridge.onLine st .blank = (st, [])) ∧
    (∀ (st : Bridge.ClientState) (msg : Bridge.Msg),
        Bridge.lookupId st.pending msg.id = none →
        Bridge.onLine st (.response msg) = (st, [])) ∧
    (∀ (st : Bridge.ClientState) (msg : Bridge.Msg) (waiter : Nat),
        Bridge.lookupId st.pending msg.id = some waiter →
        (Bridge.onLine st (.response msg)).1.pending =
            Bridge.eraseId st.pending msg.id ∧
        ∃ s, (Bridge.onLine st (.response msg)).2 = [s] ∧
            Bridge.Settle.token s = waiter) ∧
    (∀ (st : Bridge.ClientState) (id : String),
        (st.pending.map Prod.fst).Nodup →
        Bridge.lookupId (Bridge.eraseId st.pending id) id = none) ∧
    (∀ (st : Bridge.ClientState) (lines : List Bridge.Line) (tok : Nat),
        (st.pending.map Prod.fst).Nodup → (st.pending.map Prod.snd).Nodup →
        (Bridge.processLines st lines).2.countP
          (fun s => Bridge.Settle.token s == tok) ≤ 1) := by
  refine ⟨fun st => ⟨rfl, rfl⟩, ?_, ?_, ?_, ?_⟩
  · intro st msg hL
    exact Bridge.onLine_response_none st msg hL
  · intro st msg waiter hL
    rw [Bridge.onLine_response_some st msg waiter hL]
    exact ⟨rfl, Bridge.settleOf msg waiter, rfl, Bridge.settleOf_token msg waiter⟩
  · intro st id hk
    exact Bridge.lookupId_eraseId_self hk
  · intro st lines tok hk ht
    exact Bridge.processLines_at_most_once lines st tok hk ht

/-- C6 witness: a table with one pending entry receiving its response
twice followed by a malformed line settles the handle exactly once. -/
theorem C6_witness :
    (Bridge.processLines ⟨[("id1", 5)]⟩
        [.response ⟨"id1", true, none, none⟩, .response ⟨"id1", true, none, none⟩,
         .malformed]).2.countP (fun s => Bridge.Settle.token s == 5) ≤ 1 :=
  C6_settled_exactly_once_and_removed.2.2.2.2 ⟨[("id1", 5)]⟩
    [.response ⟨"id1", true, none, none⟩, .response ⟨"id1", true, none, none⟩,
     .malformed] 5 (by simp) (by simp)
